import Mathlib

/-!
Shallow embedding of the ynab-import core: the tabular data model, the
cleaning pipeline, the schema converter, the file-reader dispatch and the
preset persistence layer.  The repository ships only its test suite under
src, so every operation is modelled from the specification and checked
against the behaviour the tests pin down.
-/

/-- Modelled from the spec: a table cell is text, a number, a native
date/timestamp value, or an explicit missing marker (spec sections 3 and 9).
The implementation module holding the cell representation is not in src. -/
inductive Cell where
  | text (s : String)
  | num (q : Rat)
  | date (y m d : Nat)
  | missing
deriving DecidableEq

/-- Left-pads a digit string with zeros up to the requested width. -/
def padZeros (s : String) (k : Nat) : String :=
  String.mk (List.replicate (k - s.length) '0') ++ s

/-- Two-digit zero-padded rendering of a number. -/
def pad2 (n : Nat) : String := padZeros (Nat.repr n) 2

/-- Four-digit zero-padded rendering of a number. -/
def pad4 (n : Nat) : String := padZeros (Nat.repr n) 4

/-- Smallest decimal exponent that clears the denominator, used to render
numeric cell values the way the Python str coercion prints them. -/
def firstDecExp (den : Nat) : Option Nat :=
  (List.range 31).find? (fun k => 10 ^ k % den == 0)

/-- Modelled from the spec: text form of a numeric cell value; integers render
without a decimal point and decimal fractions with one, so 5/2 renders as
the text form with digits 2 point 5. -/
def ratToText (q : Rat) : String :=
  match firstDecExp q.den with
  | some 0 => Int.repr q.num
  | some (k + 1) =>
    let e := k + 1
    let m := q.num.natAbs * 10 ^ e / q.den
    let sign := if q.num < 0 then "-" else ""
    sign ++ Nat.repr (m / 10 ^ e) ++ "." ++ padZeros (Nat.repr (m % 10 ^ e)) e
  | none => Int.repr q.num ++ "/" ++ Nat.repr q.den

/-- Modelled from the spec: coercion of a cell to text for header promotion
(section 4.2 step 3); a missing cell renders as empty text. -/
def headerText : Cell → String
  | Cell.text s => s
  | Cell.num q => ratToText q
  | Cell.date y m d => pad4 y ++ "-" ++ pad2 m ++ "-" ++ pad2 d
  | Cell.missing => ""

/-- Modelled from the spec: the textual form of a cell used for substring row
matching; a null/absent cell has no textual form (section 4.2 step 2). -/
def cellText : Cell → Option String
  | Cell.missing => none
  | c => some (headerText c)

/-- Boolean test that the pattern starts the given character list. -/
def leadsWith : List Char → List Char → Bool
  | [], _ => true
  | _ :: _, [] => false
  | a :: pa, b :: pb => a == b && leadsWith pa pb

/-- Boolean test that the pattern occurs contiguously inside the character
list, the way the Python `in` operator matches substrings. -/
def containsSub (pat : List Char) : List Char → Bool
  | [] => leadsWith pat []
  | b :: bs => leadsWith pat (b :: bs) || containsSub pat bs

/-- Modelled from the spec: drop the first header count and last footer count
of rows, clamping at an empty table (section 4.2 step 1); the list embedding
keeps rows at logical positions starting from zero, which is the reset index.
The implementation module clean_input is not in src. -/
def remove_header_footer (rows : List (List Cell)) (header_rows footer_rows : Nat) :
    List (List Cell) :=
  (rows.drop header_rows).take (rows.length - header_rows - footer_rows)

/-- Boolean test that a single cell's textual form contains the phrase. -/
def cellMatches (phrase : String) (c : Cell) : Bool :=
  match cellText c with
  | some s => containsSub phrase.data s.data
  | none => false

/-- Boolean test that some cell of the row matches some nonempty phrase. -/
def rowMatches (phrases : List String) (r : List Cell) : Bool :=
  phrases.any (fun p => !(p == "") && r.any (cellMatches p))

/-- Modelled from the spec: drop every row with a cell whose textual form
contains a configured phrase as an exact case-sensitive substring (section
4.2 step 2); empty phrases are ignored, null cells never match, and an empty
phrase list leaves the table unchanged. -/
def delete_rows_containing_text (rows : List (List Cell)) (phrases : List String) :
    List (List Cell) :=
  rows.filter (fun r => !(rowMatches phrases r))

/-- Result of header promotion: the promoted column names plus the remaining
data rows. -/
structure HeadTable where
  header : List String
  rows : List (List Cell)
deriving DecidableEq

/-- Modelled from the spec: promote the first row, coerced to text, to the
column header and drop it from the data; an empty table stays empty (section
4.2 step 3). -/
def set_first_row_as_header : List (List Cell) → HeadTable
  | [] => ⟨[], []⟩
  | r :: rest => ⟨r.map headerText, rest⟩

/-- Splits a character list on a separator, keeping empty segments, like the
Python str.split the reader and the date parser rely on. -/
def splitOnChar (sep : Char) : List Char → List (List Char)
  | [] => [[]]
  | c :: cs =>
    if c = sep then [] :: splitOnChar sep cs
    else
      match splitOnChar sep cs with
      | [] => [[c]]
      | g :: gs => (c :: g) :: gs

/-- Value of a decimal digit character, if it is one. -/
def digitVal (c : Char) : Option Nat :=
  if c.isDigit then some (c.toNat - 48) else none

/-- Parses a nonempty all-digit character list into a number. -/
def parseNatDigits (cs : List Char) : Option Nat :=
  match cs with
  | [] => none
  | _ =>
    cs.foldl (fun acc c => acc.bind (fun n => (digitVal c).map (fun d => n * 10 + d)))
      (some 0)

/-- Modelled from the spec: parse ISO-style year-month-day text into its
components, rejecting anything non-numeric or out of calendar range. -/
def parseIsoDate (s : String) : Option (Nat × Nat × Nat) :=
  match (splitOnChar '-' s.data).map parseNatDigits with
  | [some y, some m, some d] =>
    if 1 ≤ m ∧ m ≤ 12 ∧ 1 ≤ d ∧ d ≤ 31 then some (y, m, d) else none
  | _ => none

/-- Zero-padded day-month-year text, the target date format. -/
def fmtDMY (y m d : Nat) : String :=
  pad2 d ++ "-" ++ pad2 m ++ "-" ++ pad4 y

/-- Modelled from the spec: reformat one Date cell to day-month-year text;
values that cannot be parsed as dates become the missing marker instead of
raising (section 4.3, date normalization). -/
def formatDateCell : Cell → Cell
  | Cell.date y m d => Cell.text (fmtDMY y m d)
  | Cell.text s =>
    match parseIsoDate s with
    | some (y, m, d) => Cell.text (fmtDMY y m d)
    | none => Cell.missing
  | Cell.num _ => Cell.missing
  | Cell.missing => Cell.missing

/-- Modelled from the spec: immutable description of one bank's export
(section 3): display name, ordered target-to-source column mapping, trim
counts and deletion phrases.  The implementation module preset is not in
src. -/
structure Preset where
  name : String
  column_mappings : List (String × String)
  header_skiprows : Nat
  footer_skiprows : Nat
  del_rows_with : List String
deriving DecidableEq

/-- A table with named columns: an ordered association of column name to that
column's cells. -/
abbrev Table := List (String × List Cell)

/-- Modelled from the spec: the shared source column when the mapping sends
both Inflow and Outflow to the same source (section 4.3, amount split). -/
def splitSource (p : Preset) : Option String :=
  match List.lookup "Inflow" p.column_mappings, List.lookup "Outflow" p.column_mappings with
  | some si, some so => if si = so then some si else none
  | _, _ => none

/-- Inflow half of the amount split: positive values pass, all else missing. -/
def splitInCell : Cell → Cell
  | Cell.num q => if 0 < q then Cell.num q else Cell.missing
  | _ => Cell.missing

/-- Outflow half of the amount split: negative values flip sign, all else
missing. -/
def splitOutCell : Cell → Cell
  | Cell.num q => if q < 0 then Cell.num (-q) else Cell.missing
  | _ => Cell.missing

/-- Modelled from the spec: the cells projected for one target field, with
the amount split applied when the shared-source condition holds; an absent
source column projects nothing (section 4.3).  The implementation module
data_converter is not in src. -/
def projectCol (t : Table) (p : Preset) (tg : String) : Option (List Cell) :=
  (List.lookup tg p.column_mappings).bind (fun src =>
    (List.lookup src t).map (fun vals =>
      match splitSource p with
      | some _ =>
        if tg = "Inflow" then vals.map splitInCell
        else if tg = "Outflow" then vals.map splitOutCell
        else vals
      | none => vals))

/-- Date-normalization pass over one named output column. -/
def dateAdjust (c : String × List Cell) : String × List Cell :=
  if c.fst = "Date" then (c.fst, c.snd.map formatDateCell) else c

/-- Modelled from the spec: schema conversion (section 4.3): project every
mapped target field whose source exists, in mapping order, apply the amount
split pre-pass, then normalize the Date column. -/
def convert_to_ynab (t : Table) (p : Preset) : Table :=
  ((p.column_mappings.map Prod.fst).filterMap
    (fun tg => (projectCol t p tg).map (fun v => (tg, v)))).map dateAdjust

/-- Modelled from the spec: reader failure taxonomy (section 7).  The
implementation module file_rw.readers is not in src. -/
inductive ReadError where
  | fileNotFound (path : String)
  | unsupportedFormat (msg : String)
deriving DecidableEq

/-- Delimited-text extensions the reader accepts. -/
def textExts : List String := [".csv"]

/-- Spreadsheet extensions the reader accepts. -/
def sheetExts : List String := [".xlsx", ".xls"]

/-- Extension of a path: the final dot and what follows it, empty when the
path has no dot. -/
def extOf (path : String) : String :=
  if path.data.contains '.' then
    String.mk ('.' :: (path.data.reverse.takeWhile (fun c => c ≠ '.')).reverse)
  else ""

/-- Strips a leading byte-order mark from decoded text. -/
def stripBom (cs : List Char) : List Char :=
  match cs with
  | c :: rest => if c = '\uFEFF' then rest else cs
  | [] => []

/-- First line of the content, the only line delimiter detection may read. -/
def firstLineOf (content : String) : List Char :=
  content.data.takeWhile (fun c => c ≠ '\n')

/-- Modelled from the spec: count commas and semicolons in the first line only
and choose the semicolon exactly when its count reaches the comma count and
at least one semicolon is present (section 4.1). -/
def detect_delimiter (content : String) : Char :=
  if (firstLineOf content).count ',' ≤ (firstLineOf content).count ';' ∧
      1 ≤ (firstLineOf content).count ';' then ';' else ','

/-- Modelled from the spec: split decoded text into a raw cell grid using the
detected delimiter; quote handling is out of scope per the spec's known
heuristic-limit note. -/
def parseCsv (content : String) : List (List Cell) :=
  let cs := stripBom content.data
  (splitOnChar '\n' cs).map
    (fun line => (splitOnChar (detect_delimiter (String.mk cs)) line).map
      (fun f => Cell.text (String.mk f)))

/-- Modelled from the spec: load the first sheet's cells verbatim into the raw
table shape; the binary spreadsheet container is abstracted as a decoded cell
grid (section 4.1, spreadsheet path). -/
def sheetRows (content : String) : List (List Cell) :=
  (splitOnChar '\n' content.data).map
    (fun line => (splitOnChar '\t' line).map (fun f => Cell.text (String.mk f)))

/-- Modelled from the spec and the test suite: dispatch on the extension
first, so an unrecognized extension is reported whether or not the path
exists, exactly as the tests pin down; a recognized extension then fails on a
missing path before parsing (sections 4.1 and 7). -/
def read_transaction_file (fs : List (String × String)) (path : String) :
    Except ReadError (List (List Cell)) :=
  if extOf path ∈ textExts then
    match List.lookup path fs with
    | none => Except.error (ReadError.fileNotFound path)
    | some content => Except.ok (parseCsv content)
  else if extOf path ∈ sheetExts then
    match List.lookup path fs with
    | none => Except.error (ReadError.fileNotFound path)
    | some content => Except.ok (sheetRows content)
  else Except.error (ReadError.unsupportedFormat ("Unsupported file format: " ++ extOf path))

/-- Minimal JSON value model for preset persistence. -/
inductive Jval where
  | jstr (s : String)
  | jnum (n : Int)
  | jarr (xs : List Jval)
  | jobj (fields : List (String × Jval))

/-- Modelled from the spec: the JSON object shape one preset persists to
(section 6). -/
def presetToJson (p : Preset) : Jval :=
  Jval.jobj
    [("name", Jval.jstr p.name),
     ("column_mappings",
       Jval.jobj (p.column_mappings.map (fun kv => (kv.fst, Jval.jstr kv.snd)))),
     ("header_skiprows", Jval.jnum p.header_skiprows),
     ("footer_skiprows", Jval.jnum p.footer_skiprows),
     ("del_rows_with", Jval.jarr (p.del_rows_with.map Jval.jstr))]

/-- Modelled from the spec: persist the preset mapping as a JSON object keyed
by preset id (section 6); the textual layer is the standard json library and
is modelled at the value level.  The implementation module file_rw.writers is
not in src. -/
def write_presets_json (presets : List (String × Preset)) : Jval :=
  Jval.jobj (presets.map (fun kp => (kp.fst, presetToJson kp.snd)))

/-- Effectful map over a list in the Option monad: any failing element
fails the whole traversal, as the json decoder behaves. -/
def optionTraverse (f : α → Option β) : List α → Option (List β)
  | [] => some []
  | a :: l => (f a).bind (fun b => (optionTraverse f l).map (fun bs => b :: bs))

/-- String payload of a JSON value, if it is a string. -/
def asStr : Jval → Option String
  | Jval.jstr s => some s
  | _ => none

/-- Decodes one column-mapping entry back to a pair of names. -/
def strEntry (kv : String × Jval) : Option (String × String) :=
  (asStr kv.snd).map (fun s => (kv.fst, s))

/-- Non-negative number payload of a JSON value, if it is one. -/
def asNat : Jval → Option Nat
  | Jval.jnum n => if 0 ≤ n then some n.toNat else none
  | _ => none

/-- Modelled from the spec: decode one preset object back into the Preset
value shape (section 6). -/
def presetOfJson : Jval → Option Preset
  | Jval.jobj fields => do
    let nm ← (List.lookup "name" fields).bind asStr
    let cm ← (List.lookup "column_mappings" fields).bind
      (fun j => match j with
        | Jval.jobj fs => optionTraverse strEntry fs
        | _ => none)
    let h ← (List.lookup "header_skiprows" fields).bind asNat
    let f ← (List.lookup "footer_skiprows" fields).bind asNat
    let del ← (List.lookup "del_rows_with" fields).bind
      (fun j => match j with
        | Jval.jarr xs => optionTraverse asStr xs
        | _ => none)
    some ⟨nm, cm, h, f, del⟩
  | _ => none

/-- Modelled from the spec: read the persisted preset mapping back (section
6); any malformed entry fails the read. -/
def read_presets_file (j : Jval) : Option (List (String × Preset)) :=
  match j with
  | Jval.jobj fields =>
    optionTraverse (fun kv => (presetOfJson kv.snd).map (fun p => (kv.fst, p))) fields
  | _ => none

theorem leadsWith_iff (p s : List Char) : leadsWith p s = true ↔ ∃ r, s = p ++ r := by
  induction p generalizing s with
  | nil => simp [leadsWith]
  | cons a pa ih =>
    cases s with
    | nil => simp [leadsWith]
    | cons b bs =>
      simp only [leadsWith, Bool.and_eq_true, beq_iff_eq, ih, List.cons_append,
        List.cons.injEq]
      constructor
      · rintro ⟨hab, r, hr⟩
        exact ⟨r, hab.symm, hr⟩
      · rintro ⟨r, hb, hr⟩
        exact ⟨hb.symm, r, hr⟩

theorem containsSub_iff (p s : List Char) :
    containsSub p s = true ↔ ∃ l r, s = l ++ p ++ r := by
  induction s with
  | nil =>
    simp only [containsSub, leadsWith_iff]
    constructor
    · rintro ⟨r, hr⟩
      exact ⟨[], r, by simpa using hr⟩
    · rintro ⟨l, r, hr⟩
      have hr2 : l ++ (p ++ r) = [] := by
        rw [← List.append_assoc]
        exact hr.symm
      obtain ⟨hl, hpr⟩ := List.append_eq_nil.mp hr2
      obtain ⟨hp, hrr⟩ := List.append_eq_nil.mp hpr
      exact ⟨[], by simp [hp]⟩
  | cons b bs ih =>
    simp only [containsSub, Bool.or_eq_true, leadsWith_iff, ih]
    constructor
    · rintro (⟨r, hr⟩ | ⟨l, r, hr⟩)
      · exact ⟨[], r, by simpa using hr⟩
      · exact ⟨b :: l, r, by simp [hr]⟩
    · rintro ⟨l, r, hr⟩
      cases l with
      | nil => exact Or.inl ⟨r, by simpa using hr⟩
      | cons c l2 =>
        simp only [List.cons_append, List.cons.injEq] at hr
        exact Or.inr ⟨l2, r, hr.2⟩

theorem dateAdjust_fst (c : String × List Cell) : (dateAdjust c).fst = c.fst := by
  unfold dateAdjust
  split <;> rfl

theorem dateAdjust_pair (a : String) (v : List Cell) :
    dateAdjust (a, v) = (a, if a = "Date" then v.map formatDateCell else v) := by
  unfold dateAdjust
  by_cases h : a = "Date" <;> simp [h]

theorem lookup_cons_self {β : Type} (k : String) (v : β) (l : List (String × β)) :
    List.lookup k ((k, v) :: l) = some v := by
  simp [List.lookup]

theorem lookup_cons_ne {β : Type} (k a : String) (v : β) (l : List (String × β))
    (h : a ≠ k) : List.lookup k ((a, v) :: l) = List.lookup k l := by
  rw [List.lookup]
  have hb : (k == a) = false := by
    simp [Ne.symm h]
  rw [hb]

theorem lookup_some_mem {β : Type} {k : String} {v : β} (l : List (String × β))
    (h : List.lookup k l = some v) : k ∈ l.map Prod.fst := by
  induction l with
  | nil => simp [List.lookup] at h
  | cons a l ih =>
    obtain ⟨ak, av⟩ := a
    by_cases hk : k = ak
    · simp [hk]
    · rw [lookup_cons_ne k ak av l (fun he => hk he.symm)] at h
      simpa using Or.inr (ih h)

theorem splitSource_eq_some (p : Preset) (s : String) (h : splitSource p = some s) :
    List.lookup "Inflow" p.column_mappings = some s ∧
      List.lookup "Outflow" p.column_mappings = some s := by
  cases h1 : List.lookup "Inflow" p.column_mappings with
  | none =>
    have h0 : splitSource p = none := by
      unfold splitSource
      rw [h1]
    rw [h0] at h
    exact Option.noConfusion h
  | some si =>
    cases h2 : List.lookup "Outflow" p.column_mappings with
    | none =>
      have h0 : splitSource p = none := by
        unfold splitSource
        rw [h1, h2]
      rw [h0] at h
      exact Option.noConfusion h
    | some so =>
      have h0 : splitSource p = if si = so then some si else none := by
        unfold splitSource
        rw [h1, h2]
      rw [h0] at h
      by_cases he : si = so
      · rw [if_pos he] at h
        injection h with hs
        subst hs
        exact ⟨rfl, by rw [he]⟩
      · rw [if_neg he] at h
        exact Option.noConfusion h

theorem splitSource_none_left (p : Preset)
    (h : List.lookup "Inflow" p.column_mappings = none) : splitSource p = none := by
  unfold splitSource
  rw [h]

theorem splitSource_none_right (p : Preset)
    (h : List.lookup "Outflow" p.column_mappings = none) : splitSource p = none := by
  unfold splitSource
  cases h1 : List.lookup "Inflow" p.column_mappings with
  | none => rfl
  | some si => rw [h]

theorem lookup_projected (t : Table) (p : Preset) (tg : String) (w : List Cell)
    (h : projectCol t p tg = some w) (L : List String) :
    tg ∈ L →
      List.lookup tg
        ((L.filterMap (fun s => (projectCol t p s).map (fun v => (s, v)))).map dateAdjust) =
        some (if tg = "Date" then w.map formatDateCell else w) := by
  induction L with
  | nil => intro hL; cases hL
  | cons a L ih =>
    intro hL
    by_cases ha : a = tg
    · subst ha
      simp only [List.filterMap_cons, h, Option.map_some', List.map_cons, dateAdjust_pair]
      by_cases hd : a = "Date" <;> simp [hd, lookup_cons_self]
    · have hL2 : tg ∈ L := by
        rcases List.mem_cons.mp hL with h1 | h2
        · exact absurd h1.symm ha
        · exact h2
      cases hpa : projectCol t p a with
      | none =>
        simp only [List.filterMap_cons, hpa, Option.map_none']
        exact ih hL2
      | some v =>
        simp only [List.filterMap_cons, hpa, Option.map_some', List.map_cons, dateAdjust_pair]
        rw [lookup_cons_ne tg a _ _ ha]
        exact ih hL2

theorem lookup_convert (t : Table) (p : Preset) (tg : String) (w : List Cell)
    (h : projectCol t p tg = some w) :
    List.lookup tg (convert_to_ynab t p) =
      some (if tg = "Date" then w.map formatDateCell else w) := by
  have hlk : ∃ src, List.lookup tg p.column_mappings = some src := by
    unfold projectCol at h
    cases hl : List.lookup tg p.column_mappings with
    | none => rw [hl] at h; exact Option.noConfusion h
    | some src => exact ⟨src, rfl⟩
  obtain ⟨src, hsrc⟩ := hlk
  exact lookup_projected t p tg w h (p.column_mappings.map Prod.fst)
    (lookup_some_mem _ hsrc)

theorem convert_names (t : Table) (p : Preset) :
    (convert_to_ynab t p).map Prod.fst =
      (p.column_mappings.map Prod.fst).filter (fun tg => (projectCol t p tg).isSome) := by
  unfold convert_to_ynab
  generalize p.column_mappings.map Prod.fst = L
  induction L with
  | nil => rfl
  | cons a L ih =>
    cases hpa : projectCol t p a with
    | none => simpa [List.filterMap_cons, hpa, List.filter_cons] using ih
    | some v =>
      simpa [List.filterMap_cons, hpa, List.filter_cons, dateAdjust_fst] using ih

theorem projectCol_isSome (t : Table) (p : Preset) (tg : String) :
    (projectCol t p tg).isSome =
      ((List.lookup tg p.column_mappings).bind (fun src => List.lookup src t)).isSome := by
  unfold projectCol
  cases h1 : List.lookup tg p.column_mappings with
  | none => rfl
  | some src =>
    simp only [Option.some_bind]
    cases h2 : List.lookup src t with
    | none => rfl
    | some vals => simp

theorem projectCol_split_in (t : Table) (p : Preset) (src : String) (vals : List Cell)
    (hin : List.lookup "Inflow" p.column_mappings = some src)
    (hout : List.lookup "Outflow" p.column_mappings = some src)
    (hv : List.lookup src t = some vals) :
    projectCol t p "Inflow" = some (vals.map splitInCell) := by
  have hs : splitSource p = some src := by
    unfold splitSource
    rw [hin, hout]
    simp
  simp [projectCol, hin, hv, hs]

theorem projectCol_split_out (t : Table) (p : Preset) (src : String) (vals : List Cell)
    (hin : List.lookup "Inflow" p.column_mappings = some src)
    (hout : List.lookup "Outflow" p.column_mappings = some src)
    (hv : List.lookup src t = some vals) :
    projectCol t p "Outflow" = some (vals.map splitOutCell) := by
  have hs : splitSource p = some src := by
    unfold splitSource
    rw [hin, hout]
    simp
  simp [projectCol, hout, hv, hs]

/-- Claim C1, amended.  Under a shared Inflow/Outflow source the converter
splits the column row by row: a negative numeric value puts its absolute
value in Outflow with Inflow missing, a positive one puts the value in
Inflow with Outflow missing; and the source column's name is absent from
the output provided it is not itself one of the mapping's target field
names. -/
theorem convert_amount_split_rows (t : Table) (p : Preset) (src : String)
    (vals : List Cell)
    (hin : List.lookup "Inflow" p.column_mappings = some src)
    (hout : List.lookup "Outflow" p.column_mappings = some src)
    (hv : List.lookup src t = some vals) :
    ∃ inCol outCol : List Cell,
      List.lookup "Inflow" (convert_to_ynab t p) = some inCol ∧
      List.lookup "Outflow" (convert_to_ynab t p) = some outCol ∧
      (∀ (i : Nat) (q : Rat), vals[i]? = some (Cell.num q) →
        (q < 0 → outCol[i]? = some (Cell.num (-q)) ∧ inCol[i]? = some Cell.missing) ∧
        (0 < q → inCol[i]? = some (Cell.num q) ∧ outCol[i]? = some Cell.missing)) ∧
      (src ∉ p.column_mappings.map Prod.fst →
        src ∉ (convert_to_ynab t p).map Prod.fst) := by
  have hpin := projectCol_split_in t p src vals hin hout hv
  have hpout := projectCol_split_out t p src vals hin hout hv
  have hin2 := lookup_convert t p "Inflow" _ hpin
  have hout2 := lookup_convert t p "Outflow" _ hpout
  rw [if_neg (by decide : ¬ ("Inflow" : String) = "Date")] at hin2
  rw [if_neg (by decide : ¬ ("Outflow" : String) = "Date")] at hout2
  refine ⟨vals.map splitInCell, vals.map splitOutCell, hin2, hout2, ?_, ?_⟩
  · intro i q hq
    constructor
    · intro hneg
      constructor
      · rw [List.getElem?_map, hq, Option.map_some']
        simp only [splitOutCell]
        rw [if_pos hneg]
      · rw [List.getElem?_map, hq, Option.map_some']
        simp only [splitInCell]
        rw [if_neg (asymm hneg)]
    · intro hpos
      constructor
      · rw [List.getElem?_map, hq, Option.map_some']
        simp only [splitInCell]
        rw [if_pos hpos]
      · rw [List.getElem?_map, hq, Option.map_some']
        simp only [splitOutCell]
        rw [if_neg (asymm hpos)]
  · intro hnotin hmem
    rw [convert_names] at hmem
    exact hnotin (List.mem_of_mem_filter hmem)

/-- Concrete split input shaped like the single-amount test: two rows of a
shared Amount column holding minus 100.5 and 200.75. -/
def tSplitW : Table :=
  [("Amount", [Cell.num (-(mkRat 201 2)), Cell.num (mkRat 803 4)])]

/-- Preset mapping both Inflow and Outflow to the shared Amount column. -/
def pSplitW : Preset :=
  ⟨"split", [("Inflow", "Amount"), ("Outflow", "Amount")], 0, 0, []⟩

theorem convert_amount_split_rows_w :
    ∃ inCol outCol : List Cell,
      List.lookup "Inflow" (convert_to_ynab tSplitW pSplitW) = some inCol ∧
      List.lookup "Outflow" (convert_to_ynab tSplitW pSplitW) = some outCol ∧
      outCol[0]? = some (Cell.num (mkRat 201 2)) ∧ inCol[0]? = some Cell.missing ∧
      inCol[1]? = some (Cell.num (mkRat 803 4)) ∧ outCol[1]? = some Cell.missing := by
  obtain ⟨ic, oc, h1, h2, h3, _⟩ := convert_amount_split_rows tSplitW pSplitW "Amount"
    [Cell.num (-(mkRat 201 2)), Cell.num (mkRat 803 4)] (by decide) (by decide) (by decide)
  obtain ⟨ho0, hi0⟩ := (h3 0 (-(mkRat 201 2)) (by decide)).1 (by decide)
  obtain ⟨hi1, ho1⟩ := (h3 1 (mkRat 803 4) (by decide)).2 (by decide)
  have hnn : (-(-(mkRat 201 2)) : Rat) = mkRat 201 2 := by decide
  rw [hnn] at ho0
  exact ⟨ic, oc, h1, h2, ho0, hi0, hi1, ho1⟩

/-- Concrete input refuting claim C1 as stated: the shared source column is
itself named Inflow. -/
def tSplitCex : Table := [("Inflow", [Cell.num (-1)])]

/-- Preset whose shared Inflow/Outflow source carries a target field name. -/
def pSplitCex : Preset :=
  ⟨"cex", [("Inflow", "Inflow"), ("Outflow", "Inflow")], 0, 0, []⟩

/-- Claim C1 counterexample: the split condition holds, yet the source
column's name does appear among the output columns, because the source is
named like the Inflow target itself. -/
theorem convert_amount_split_name_cex :
    List.lookup "Inflow" pSplitCex.column_mappings = some "Inflow" ∧
    List.lookup "Outflow" pSplitCex.column_mappings = some "Inflow" ∧
    "Inflow" ∈ (convert_to_ynab tSplitCex pSplitCex).map Prod.fst := by decide

/-- Claim C2.  When exactly one of Inflow/Outflow is mapped, the converter
copies the source values into the single target column unchanged: zero and
negative values and missing markers all pass through verbatim. -/
theorem convert_single_amount_unchanged (t : Table) (p : Preset) (tg src : String)
    (vals : List Cell)
    (hone : (tg = "Inflow" ∧ List.lookup "Outflow" p.column_mappings = none) ∨
      (tg = "Outflow" ∧ List.lookup "Inflow" p.column_mappings = none))
    (hm : List.lookup tg p.column_mappings = some src)
    (hv : List.lookup src t = some vals) :
    List.lookup tg (convert_to_ynab t p) = some vals := by
  have hns : splitSource p = none := by
    rcases hone with ⟨htg, h⟩ | ⟨htg, h⟩
    · exact splitSource_none_right p h
    · exact splitSource_none_left p h
  have hp : projectCol t p tg = some vals := by
    simp [projectCol, hm, hv, hns]
  have h2 := lookup_convert t p tg vals hp
  have htgd : ¬ tg = "Date" := by
    rcases hone with ⟨htg, _⟩ | ⟨htg, _⟩ <;> subst htg <;> decide
  rw [if_neg htgd] at h2
  exact h2

/-- Concrete no-split input: an Amount column with a negative value, a
positive value, zero and a missing cell. -/
def tNoSplitW : Table :=
  [("Amount", [Cell.num (-(mkRat 201 2)), Cell.num (mkRat 803 4), Cell.num 0, Cell.missing])]

/-- Preset mapping only Outflow to the Amount column. -/
def pNoSplitW : Preset :=
  ⟨"noSplit", [("Outflow", "Amount")], 0, 0, []⟩

theorem convert_single_amount_unchanged_w :
    List.lookup "Outflow" (convert_to_ynab tNoSplitW pNoSplitW) =
      some [Cell.num (-(mkRat 201 2)), Cell.num (mkRat 803 4), Cell.num 0, Cell.missing] :=
  convert_single_amount_unchanged tNoSplitW pNoSplitW "Outflow" "Amount"
    [Cell.num (-(mkRat 201 2)), Cell.num (mkRat 803 4), Cell.num 0, Cell.missing]
    (Or.inr ⟨rfl, by decide⟩) (by decide) (by decide)

/-- Claim C3.  Whenever the preset populates a Date target, every projected
cell is rewritten by the date pass: native date values and parseable
ISO-style text become zero-padded day-month-year text, and unparseable text
becomes the missing marker; the conversion is a total function, so no input
date can abort it. -/
theorem convert_date_format (t : Table) (p : Preset) (src : String) (vals : List Cell)
    (hm : List.lookup "Date" p.column_mappings = some src)
    (hv : List.lookup src t = some vals) :
    ∃ out : List Cell,
      List.lookup "Date" (convert_to_ynab t p) = some out ∧
      out = vals.map formatDateCell ∧
      (∀ (i y m d : Nat), vals[i]? = some (Cell.date y m d) →
        out[i]? = some (Cell.text (fmtDMY y m d))) ∧
      (∀ (i : Nat) (s : String) (y m d : Nat), vals[i]? = some (Cell.text s) →
        parseIsoDate s = some (y, m, d) → out[i]? = some (Cell.text (fmtDMY y m d))) ∧
      (∀ (i : Nat) (s : String), vals[i]? = some (Cell.text s) →
        parseIsoDate s = none → out[i]? = some Cell.missing) := by
  have hp : projectCol t p "Date" = some vals := by
    cases hs : splitSource p with
    | none => simp [projectCol, hm, hv, hs]
    | some s => simp [projectCol, hm, hv, hs]
  have h2 := lookup_convert t p "Date" vals hp
  rw [if_pos rfl] at h2
  refine ⟨vals.map formatDateCell, h2, rfl, ?_, ?_, ?_⟩
  · intro i y m d hq
    rw [List.getElem?_map, hq, Option.map_some']
    rfl
  · intro i s y m d hq hps
    rw [List.getElem?_map, hq, Option.map_some']
    simp [formatDateCell, hps]
  · intro i s hq hps
    rw [List.getElem?_map, hq, Option.map_some']
    simp [formatDateCell, hps]

/-- Concrete date input: a parseable ISO string, unparseable text and a
native date value. -/
def tDateW : Table :=
  [("D", [Cell.text "2023-01-15", Cell.text "not a date", Cell.date 2025 8 13])]

/-- Preset mapping the Date target to the D column. -/
def pDateW : Preset := ⟨"dates", [("Date", "D")], 0, 0, []⟩

theorem convert_date_format_w :
    ∃ out : List Cell,
      List.lookup "Date" (convert_to_ynab tDateW pDateW) = some out ∧
      out[0]? = some (Cell.text "15-01-2023") ∧
      out[1]? = some Cell.missing ∧
      out[2]? = some (Cell.text "13-08-2025") := by
  obtain ⟨out, h1, _, hd, ht, hn⟩ := convert_date_format tDateW pDateW "D"
    [Cell.text "2023-01-15", Cell.text "not a date", Cell.date 2025 8 13]
    (by decide) (by decide)
  refine ⟨out, h1, ?_, ?_, ?_⟩
  · have h := ht 0 "2023-01-15" 2023 1 15 (by decide) (by decide)
    rw [h]
    decide
  · exact hn 1 "not a date" (by decide) (by decide)
  · have h := hd 2 2025 8 13 (by decide)
    rw [h]
    decide

theorem rowMatches_iff (phrases : List String) (r : List Cell) :
    rowMatches phrases r = true ↔
      ∃ p ∈ phrases, p ≠ "" ∧ ∃ c ∈ r, ∃ s : String, cellText c = some s ∧
        ∃ l rr : List Char, s.data = l ++ p.data ++ rr := by
  unfold rowMatches
  rw [List.any_eq_true]
  constructor
  · rintro ⟨p, hp, hb⟩
    rw [Bool.and_eq_true] at hb
    obtain ⟨hne, hany⟩ := hb
    rw [List.any_eq_true] at hany
    obtain ⟨c, hc, hcm⟩ := hany
    unfold cellMatches at hcm
    cases hs : cellText c with
    | none =>
      rw [hs] at hcm
      exact Bool.noConfusion hcm
    | some s =>
      rw [hs] at hcm
      refine ⟨p, hp, ?_, c, hc, s, hs, ?_⟩
      · intro he
        subst he
        simp at hne
      · exact (containsSub_iff _ _).mp hcm
  · rintro ⟨p, hp, hne, c, hc, s, hs, l, rr, hlr⟩
    refine ⟨p, hp, ?_⟩
    rw [Bool.and_eq_true]
    refine ⟨by simp [hne], ?_⟩
    rw [List.any_eq_true]
    refine ⟨c, hc, ?_⟩
    unfold cellMatches
    rw [hs]
    exact (containsSub_iff _ _).mpr ⟨l, rr, hlr⟩

/-- Claim C4.  The deletion step keeps exactly the rows in which no cell's
textual form contains any nonempty phrase as an exact case-sensitive
substring, preserving relative order; null cells have no textual form so
they never match, empty phrases never match, and the empty phrase list is
the identity. -/
theorem delete_rows_spec (rows : List (List Cell)) (phrases : List String) :
    (delete_rows_containing_text rows phrases).Sublist rows ∧
    (∀ r, r ∈ delete_rows_containing_text rows phrases ↔
      r ∈ rows ∧ ¬ ∃ p ∈ phrases, p ≠ "" ∧ ∃ c ∈ r, ∃ s : String, cellText c = some s ∧
        ∃ l rr : List Char, s.data = l ++ p.data ++ rr) ∧
    delete_rows_containing_text rows [] = rows := by
  refine ⟨List.filter_sublist _, ?_, ?_⟩
  · intro r
    unfold delete_rows_containing_text
    rw [List.mem_filter]
    constructor
    · rintro ⟨hr, hb⟩
      refine ⟨hr, ?_⟩
      intro hex
      rw [(rowMatches_iff phrases r).mpr hex] at hb
      exact Bool.noConfusion hb
    · rintro ⟨hr, hnex⟩
      refine ⟨hr, ?_⟩
      cases hbm : rowMatches phrases r with
      | false => rfl
      | true => exact absurd ((rowMatches_iff phrases r).mp hbm) hnex
  · unfold delete_rows_containing_text
    induction rows with
    | nil => rfl
    | cons r rs ih =>
      rw [List.filter_cons]
      rw [if_pos (show (!rowMatches [] r) = true from rfl), ih]

/-- Concrete deletion input with an exact-case phrase hit, a lower-case miss
and a null cell. -/
def rowsDelW : List (List Cell) :=
  [[Cell.text "Data 1", Cell.text "Total"],
   [Cell.text "Data 2", Cell.text "total"],
   [Cell.missing, Cell.text "x"]]

theorem delete_rows_spec_w :
    delete_rows_containing_text rowsDelW [] = rowsDelW ∧
    delete_rows_containing_text rowsDelW ["Total"] =
      [[Cell.text "Data 2", Cell.text "total"], [Cell.missing, Cell.text "x"]] :=
  ⟨(delete_rows_spec rowsDelW []).2.2, by decide⟩

/-- Claim C5, amended.  The output has a column for exactly those targets of
the mapping whose source exists in the input, in mapping order; every output
column other than the Date target and the sign-split Inflow/Outflow targets
carries the source values unchanged under the target name; and every output
column name is a target field name of the mapping, so a source-named column
can survive only by coinciding with a target name. -/
theorem convert_columns_amended (t : Table) (p : Preset) :
    (convert_to_ynab t p).map Prod.fst =
      (p.column_mappings.map Prod.fst).filter
        (fun tg => ((List.lookup tg p.column_mappings).bind
          (fun src => List.lookup src t)).isSome) ∧
    (∀ (tg src : String) (vals : List Cell), tg ≠ "Date" →
      (splitSource p = some src → tg ≠ "Inflow" ∧ tg ≠ "Outflow") →
      List.lookup tg p.column_mappings = some src →
      List.lookup src t = some vals →
      List.lookup tg (convert_to_ynab t p) = some vals) ∧
    (∀ n, n ∈ (convert_to_ynab t p).map Prod.fst → n ∈ p.column_mappings.map Prod.fst) := by
  refine ⟨?_, ?_, ?_⟩
  · rw [convert_names]
    simp only [projectCol_isSome]
  · intro tg src vals hnd hns hm hv
    have hp : projectCol t p tg = some vals := by
      cases hs : splitSource p with
      | none => simp [projectCol, hm, hv, hs]
      | some s =>
        by_cases hI : tg = "Inflow"
        · subst hI
          obtain ⟨hsi, _⟩ := splitSource_eq_some p s hs
          rw [hm] at hsi
          injection hsi with he
          exact absurd rfl ((hns (by rw [hs, he])).1)
        · by_cases hO : tg = "Outflow"
          · subst hO
            obtain ⟨_, hso⟩ := splitSource_eq_some p s hs
            rw [hm] at hso
            injection hso with he
            exact absurd rfl ((hns (by rw [hs, he])).2)
          · simp [projectCol, hm, hv, hs, hI, hO]
    have h2 := lookup_convert t p tg vals hp
    rw [if_neg hnd] at h2
    exact h2
  · intro n hn
    rw [convert_names] at hn
    exact List.mem_of_mem_filter hn

/-- Concrete input refuting claim C5 as stated: a Date source shares its name
with the Date target and its values get reformatted. -/
def tColsCex : Table := [("Date", [Cell.text "2023-01-15"])]

/-- Preset mapping the Date target to the source column also named Date. -/
def pColsCex : Preset := ⟨"cx", [("Date", "Date")], 0, 0, []⟩

/-- Claim C5 counterexample: the output bears the source-column name Date,
and that column does not carry the source values in their original form —
they are date-reformatted. -/
theorem convert_columns_cex :
    List.lookup "Date" tColsCex = some [Cell.text "2023-01-15"] ∧
    "Date" ∈ tColsCex.map Prod.fst ∧
    "Date" ∈ (convert_to_ynab tColsCex pColsCex).map Prod.fst ∧
    List.lookup "Date" (convert_to_ynab tColsCex pColsCex) =
      some [Cell.text "15-01-2023"] := by decide

/-- Concrete projection input: two present sources and one absent source. -/
def tColsW : Table := [("Dato", [Cell.text "a"]), ("Tekst", [Cell.text "b"])]

/-- Preset whose Memo target names a source that the table lacks. -/
def pColsW : Preset :=
  ⟨"w", [("Date", "Dato"), ("Payee", "Tekst"), ("Memo", "Missing")], 0, 0, []⟩

theorem convert_columns_amended_w :
    (convert_to_ynab tColsW pColsW).map Prod.fst = ["Date", "Payee"] ∧
    List.lookup "Payee" (convert_to_ynab tColsW pColsW) = some [Cell.text "b"] := by
  obtain ⟨h1, h2, _⟩ := convert_columns_amended tColsW pColsW
  constructor
  · rw [h1]
    decide
  · exact h2 "Payee" "Tekst" [Cell.text "b"] (by decide)
      (fun hs => absurd hs (by decide)) (by decide) (by decide)

/-- Claim C6.  Trimming clamps: once the requested header plus footer count
reaches the row count the result is empty; in general the result length is
the clamped difference, never negative, and row i of the result is row
header plus i of the input, so positions restart at zero. -/
theorem remove_header_footer_spec (rows : List (List Cell)) (h f : Nat) :
    (rows.length ≤ h + f → remove_header_footer rows h f = []) ∧
    (remove_header_footer rows h f).length = rows.length - h - f ∧
    (∀ i : Nat, i < rows.length - h - f →
      (remove_header_footer rows h f)[i]? = rows[h + i]?) := by
  refine ⟨?_, ?_, ?_⟩
  · intro hle
    unfold remove_header_footer
    have h0 : rows.length - h - f = 0 := by omega
    rw [h0, List.take_zero]
  · unfold remove_header_footer
    rw [List.length_take, List.length_drop]
    omega
  · intro i hi
    unfold remove_header_footer
    rw [List.getElem?_take, if_pos hi]
    exact List.getElem?_drop rows h i

/-- Concrete two-row table for the trim witness. -/
def rowsTrimW : List (List Cell) := [[Cell.text "Row 1"], [Cell.text "Row 2"]]

theorem remove_header_footer_spec_w :
    remove_header_footer rowsTrimW 1 1 = [] ∧
    (remove_header_footer rowsTrimW 1 1).length = rowsTrimW.length - 1 - 1 := by
  refine ⟨(remove_header_footer_spec rowsTrimW 1 1).1 (by decide), ?_⟩
  exact (remove_header_footer_spec rowsTrimW 1 1).2.1

/-- Claim C7, amended.  The reader dispatches on the extension first: any
path whose extension is neither delimited-text nor spreadsheet fails with
the UnsupportedFormat error whose message contains the offending extension,
whether or not the path exists; a path with a recognized extension that does
not exist fails with FileNotFound. -/
theorem read_dispatch_amended (fs : List (String × String)) (path : String) :
    (extOf path ∉ textExts → extOf path ∉ sheetExts →
      read_transaction_file fs path =
        Except.error (ReadError.unsupportedFormat
          ("Unsupported file format: " ++ extOf path)) ∧
      ∃ l r : List Char,
        ("Unsupported file format: " ++ extOf path).data = l ++ (extOf path).data ++ r) ∧
    ((extOf path ∈ textExts ∨ extOf path ∈ sheetExts) → List.lookup path fs = none →
      read_transaction_file fs path = Except.error (ReadError.fileNotFound path)) := by
  constructor
  · intro h1 h2
    constructor
    · unfold read_transaction_file
      rw [if_neg h1, if_neg h2]
    · refine ⟨"Unsupported file format: ".data, [], ?_⟩
      rw [String.data_append, List.append_nil]
  · intro hm hnone
    by_cases ht : extOf path ∈ textExts
    · unfold read_transaction_file
      rw [if_pos ht, hnone]
    · rcases hm with h | h
      · exact absurd h ht
      · unfold read_transaction_file
        rw [if_neg ht, if_pos h, hnone]

/-- Claim C7 counterexample: the path test.txt does not exist in the empty
file system, yet the reader reports UnsupportedFormat rather than
FileNotFound, because extension dispatch runs before the existence check —
exactly as the repository's own test with a nonexistent txt path pins. -/
theorem read_dispatch_cex :
    List.lookup "test.txt" ([] : List (String × String)) = none ∧
    read_transaction_file [] "test.txt" =
      Except.error (ReadError.unsupportedFormat "Unsupported file format: .txt") ∧
    read_transaction_file [] "test.txt" ≠
      Except.error (ReadError.fileNotFound "test.txt") := by
  have h2 : read_transaction_file [] "test.txt" =
      Except.error (ReadError.unsupportedFormat "Unsupported file format: .txt") := by
    rfl
  refine ⟨rfl, h2, ?_⟩
  intro hc
  have h3 := h2.symm.trans hc
  injection h3 with h4
  exact ReadError.noConfusion h4

theorem read_dispatch_amended_w :
    read_transaction_file [] "data.xyz" =
      Except.error (ReadError.unsupportedFormat
        ("Unsupported file format: " ++ extOf "data.xyz")) ∧
    read_transaction_file [] "nonexistent.csv" =
      Except.error (ReadError.fileNotFound "nonexistent.csv") :=
  ⟨((read_dispatch_amended [] "data.xyz").1 (by decide) (by decide)).1,
   (read_dispatch_amended [] "nonexistent.csv").2 (Or.inl (by decide)) (by decide)⟩

/-- Claim C8.  Delimiter detection counts commas and semicolons in the first
line only: the semicolon wins exactly when its count is at least the comma
count and at least one semicolon is present, the comma wins otherwise, and
any two contents with the same first line detect the same delimiter. -/
theorem detect_delimiter_spec (content : String) :
    ((firstLineOf content).count ',' ≤ (firstLineOf content).count ';' →
      1 ≤ (firstLineOf content).count ';' → detect_delimiter content = ';') ∧
    (((firstLineOf content).count ';' < (firstLineOf content).count ',' ∨
      (firstLineOf content).count ';' = 0) → detect_delimiter content = ',') ∧
    (∀ other : String, firstLineOf other = firstLineOf content →
      detect_delimiter other = detect_delimiter content) := by
  refine ⟨?_, ?_, ?_⟩
  · intro h1 h2
    unfold detect_delimiter
    rw [if_pos ⟨h1, h2⟩]
  · intro h
    unfold detect_delimiter
    rw [if_neg]
    rintro ⟨ha, hb⟩
    rcases h with h | h
    · omega
    · omega
  · intro other he
    unfold detect_delimiter
    rw [he]

theorem detect_delimiter_spec_w :
    detect_delimiter "Date;Description;Amount\n2024-01-01;Store, Location A;-45,67" = ';' ∧
    detect_delimiter "Date,Description,Amount\n2024-01-01,Store,-45.67" = ',' :=
  ⟨(detect_delimiter_spec "Date;Description;Amount\n2024-01-01;Store, Location A;-45,67").1
      (by decide) (by decide),
   (detect_delimiter_spec "Date,Description,Amount\n2024-01-01,Store,-45.67").2.1
      (Or.inl (by decide))⟩

/-- Claim C9.  Header promotion takes the first row coerced to text as the
new column names and drops it from the data: the empty table maps to the
empty result, a one-row table keeps the header with zero data rows, and the
numeric cell five halves coerces to the text 2.5 while the numeric cell one
coerces to the text 1. -/
theorem set_first_row_spec (rows : List (List Cell)) :
    (rows = [] → set_first_row_as_header rows = ⟨[], []⟩) ∧
    (∀ (r : List Cell) (rest : List (List Cell)), rows = r :: rest →
      set_first_row_as_header rows = ⟨r.map headerText, rest⟩) ∧
    (rows.length = 1 → (set_first_row_as_header rows).rows = []) ∧
    headerText (Cell.num (mkRat 5 2)) = "2.5" ∧
    headerText (Cell.num 1) = "1" := by
  refine ⟨?_, ?_, ?_, by decide, by decide⟩
  · intro h
    subst h
    rfl
  · intro r rest h
    subst h
    rfl
  · intro h
    cases rows with
    | nil => simp at h
    | cons r rest =>
      cases rest with
      | nil => rfl
      | cons b bs => simp [List.length_cons] at h

/-- Concrete promotion input: a numeric header row over one data row. -/
def rowsPromW : List (List Cell) :=
  [[Cell.num 1, Cell.num (mkRat 5 2), Cell.text "Text"],
   [Cell.text "Data 1", Cell.text "Data 2", Cell.text "Data 3"]]

theorem set_first_row_spec_w :
    set_first_row_as_header rowsPromW =
      ⟨["1", "2.5", "Text"],
       [[Cell.text "Data 1", Cell.text "Data 2", Cell.text "Data 3"]]⟩ := by
  have h := (set_first_row_spec rowsPromW).2.1
    [Cell.num 1, Cell.num (mkRat 5 2), Cell.text "Text"]
    [[Cell.text "Data 1", Cell.text "Data 2", Cell.text "Data 3"]] rfl
  rw [h]
  decide

theorem optionTraverse_strEntry (cm : List (String × String)) :
    optionTraverse strEntry (cm.map (fun kv => (kv.fst, Jval.jstr kv.snd))) = some cm := by
  induction cm with
  | nil => rfl
  | cons a l ih =>
    obtain ⟨k, v⟩ := a
    simp [optionTraverse, strEntry, asStr, ih]

theorem optionTraverse_asStr (l : List String) :
    optionTraverse asStr (l.map Jval.jstr) = some l := by
  induction l with
  | nil => rfl
  | cons a l ih => simp [optionTraverse, asStr, ih]

theorem presetOfJson_roundtrip (p : Preset) : presetOfJson (presetToJson p) = some p := by
  obtain ⟨nm, cm, h, f, del⟩ := p
  simp [presetOfJson, presetToJson, List.lookup, asStr, asNat,
    optionTraverse_strEntry, optionTraverse_asStr]

theorem optionTraverse_presets (ps : List (String × Preset)) :
    optionTraverse (fun kv => (presetOfJson kv.snd).map (fun p => (kv.fst, p)))
      (ps.map (fun kp => (kp.fst, presetToJson kp.snd))) = some ps := by
  induction ps with
  | nil => rfl
  | cons a l ih =>
    obtain ⟨k, p⟩ := a
    simp [optionTraverse, presetOfJson_roundtrip, ih]

theorem read_presets_roundtrip_aux (ps : List (String × Preset)) :
    read_presets_file (write_presets_json ps) = some ps :=
  optionTraverse_presets ps

/-- Claim C10.  Writing any non-empty preset mapping and reading the same
value back is the identity: every preset key maps back to a preset equal in
name, column mappings, trim counts and deletion phrases. -/
theorem write_read_roundtrip (ps : List (String × Preset)) (_hne : ps ≠ []) :
    read_presets_file (write_presets_json ps) = some ps :=
  read_presets_roundtrip_aux ps

/-- Concrete preset mapping used by the round-trip test. -/
def psRoundW : List (String × Preset) :=
  [("test_preset",
    ⟨"Test Preset", [("Date", "TransDate"), ("Amount", "Value")], 1, 2,
      ["SKIP", "IGNORE"]⟩)]

theorem write_read_roundtrip_w :
    read_presets_file (write_presets_json psRoundW) = some psRoundW :=
  write_read_roundtrip psRoundW (by decide)
